import Mathlib

/-
Verification development for the PEER data portal repository
(src/peer_portal.py and src/peer-portal.py): a shallow embedding of the
dataset-ingestion / filter-and-aggregate pipeline, followed by theorems
settling the frozen claims about it.

The repository holds two near-duplicate variants of the same dashboard:
  * src/peer_portal.py  (the richer variant; "U" for underscore below), and
  * src/peer-portal.py  (the terser variant; "H" for hyphen below).
Definitions are translated from those sources; each definition's doc comment
names the source lines it embeds.  pandas DataFrames are modelled as lists;
NaN/missing is modelled by Option (for numeric cells) or by an explicit
Val.missing constructor (for general cells); numbers are exact rationals.
-/

namespace PeerPortal

/- ================================================================
   PART 1: DEFINITIONS
   ================================================================ -/

/-- A cell value of an ingested table: text, a number, or missing (NaN). -/
inductive Val where
  | str (s : String)
  | num (q : ℚ)
  | missing
deriving DecidableEq

/- ### Lexicographic string order

pandas sorts group keys ascending (groupby defaults to sort=True); group keys
in the source are strings (Country / Region / Income values).  The comparison
is given by structural recursion over the character lists so that the kernel
can evaluate it on concrete inputs. -/

/-- Lexicographic comparison of character lists by code point. -/
def leChars : List Char → List Char → Bool
  | [], _ => true
  | _ :: _, [] => false
  | a :: as, b :: bs =>
      if a.toNat < b.toNat then true
      else if b.toNat < a.toNat then false
      else leChars as bs

/-- Lexicographic order on strings, by code point. -/
def strLe (a b : String) : Bool := leChars a.data b.data

/-- Insert a string into a list, before the first element it compares at or
below; the insertion step of an insertion sort by `strLe`. -/
def insertKey (a : String) : List String → List String
  | [] => [a]
  | b :: l => if strLe a b then a :: b :: l else b :: insertKey a l

/-- Ascending insertion sort of strings by `strLe`; models the ascending key
order pandas gives `groupby` results. -/
def sortKeys : List String → List String
  | [] => []
  | a :: l => insertKey a (sortKeys l)

/-- Sortedness of a string list under `strLe`, as a pairwise relation. -/
def KeysSorted (l : List String) : Prop :=
  l.Pairwise (fun a b => strLe a b = true)

/- ### Sorting rational values (used by the median) -/

/-- Insert a rational into a list before the first element at or above it. -/
def insertRat (x : ℚ) : List ℚ → List ℚ
  | [] => [x]
  | y :: l => if x ≤ y then x :: y :: l else y :: insertRat x l

/-- Ascending insertion sort of rationals; the sort inside `npMedian`. -/
def sortRats : List ℚ → List ℚ
  | [] => []
  | x :: l => insertRat x (sortRats l)

/- ### Statistics

src/peer_portal.py line 121 and src/peer-portal.py line 83:
`func = np.mean if stat == "Mean" else np.median`; the function is then
handed to pandas `groupby(...).agg(func)`, which maps np.mean / np.median to
its own NaN-skipping mean / median (peer_portal.py lines 148-150 and
165-172, peer-portal.py line 84). -/

/-- The statistic selected by the "Statistic" radio button. -/
inductive Stat where
  | mean
  | median
deriving DecidableEq

/-- A numeric cell after coercion: a rational, or missing (NaN). -/
abbrev ACell := Option ℚ

/-- Drop the missing entries of a numeric column, keeping order; what pandas
does to a group's values before applying the statistic (skipna). -/
def dropNA (vs : List ACell) : List ℚ := vs.filterMap id

/-- Arithmetic mean of a sample: sum divided by count. -/
def mean (xs : List ℚ) : ℚ := xs.sum / xs.length

/-- numpy median: sort the sample and average the elements at positions
`(n-1)/2` and `n/2` (integer division), which for odd `n` are both the middle
element and for even `n` the two middle elements. -/
def npMedian (xs : List ℚ) : ℚ :=
  let s := sortRats xs
  (s.getD ((xs.length - 1) / 2) 0 + s.getD (xs.length / 2) 0) / 2

/-- Apply the selected statistic to a (non-missing) sample. -/
def applyStat : Stat → List ℚ → ℚ
  | .mean => mean
  | .median => npMedian

/-- One aggregated cell as pandas computes it for a group: the statistic over
the non-missing values, and missing (NaN) when the group has no non-missing
value. -/
def pandasStat (st : Stat) (vs : List ACell) : ACell :=
  let xs := dropNA vs
  if xs = [] then none else some (applyStat st xs)

/-- Modelled from the spec's words (section 4.2, `aggregate`): "for each group
and each requested column, computes the arithmetic mean or the median over
non-missing numeric values in that column. A group with zero non-missing
values for a column yields a missing aggregate for that cell, not zero."
Stated independently of `pandasStat`, to be compared with it. -/
def specAggCell (st : Stat) (vs : List ACell) : ACell :=
  if (vs.filterMap id).length = 0 then none
  else some (applyStat st (vs.filterMap id))

/- ### Grouped aggregation

src/peer_portal.py lines 148-150 / 165-172 and src/peer-portal.py line 84:
`data.groupby(key, as_index=False)[cols].agg(func)`.  A table ready for
grouping is a list of rows, each a group-key value (a string) paired with its
numeric payload.  pandas emits one output row per distinct key, keys sorted
ascending, and within each group keeps the original row order. -/

/-- The distinct key values of a keyed table, ascending — the index of a
pandas `groupby(key, sort=True)` result. -/
def tableKeys {β : Type} (t : List (String × β)) : List String :=
  sortKeys (t.map Prod.fst).dedup

/-- The payloads of the rows of group `k`, in original row order. -/
def keyRows {β : Type} (t : List (String × β)) (k : String) : List β :=
  (t.filter (fun r => r.1 = k)).map Prod.snd

/-- A row of a multi-indicator table handed to `groupby`: the group-key value
and the row's cells for the selected indicator columns, in selection order. -/
abbrev ATable := List (String × List ACell)

/-- Cell `j` of each row of group `k` (absent positions read as missing). -/
def colVals (t : ATable) (k : String) (j : ℕ) : List ACell :=
  (keyRows t k).map (fun cs => cs.getD j none)

/-- `data.groupby(group, as_index=False)[sel_inds].agg(func)` over `n`
selected columns (src/peer_portal.py lines 148-150, src/peer-portal.py
line 84): one row per distinct key in ascending key order; each cell is the
NaN-skipping statistic over that group and column. -/
def aggTable (st : Stat) (n : ℕ) (t : ATable) : ATable :=
  (tableKeys t).map
    (fun k => (k, (List.range n).map (fun j => pandasStat st (colVals t k j))))

/-- Look up the row of group `k` in a keyed table and read its cell `j`;
missing when the group or the position is absent. -/
def cellAt (t : ATable) (k : String) (j : ℕ) : ACell :=
  match t.find? (fun r => r.1 = k) with
  | some r => r.2.getD j none
  | none => none

/- ### The per-indicator chart path (sentinel handling)

src/peer_portal.py lines 165-178: for each selected indicator the code first
aggregates (`df_ind = data.groupby(...)[[ind]].agg(func)`, lines 167/169-172)
and only then recodes the sentinel and drops blanks on the aggregated column
(`df_ind[ind] = df_ind[ind].replace(999, np.nan)` line 177,
`df_ind = df_ind.dropna(subset=[ind])` line 178). -/

/-- A single-indicator keyed table: group-key value and one numeric cell. -/
abbrev ColTable := List (String × ACell)

/-- `data.groupby(g, as_index=False)[[ind]].agg(func)` for one indicator
(src/peer_portal.py lines 165-172). -/
def aggCol (st : Stat) (t : ColTable) : ColTable :=
  (tableKeys t).map (fun k => (k, pandasStat st (keyRows t k)))

/-- `.replace(999, np.nan)` on the indicator column
(src/peer_portal.py line 177; the spec's `sentinel_to_missing`). -/
def replaceSentinel (t : ColTable) : ColTable :=
  t.map (fun r => (r.1, if r.2 = some 999 then none else r.2))

/-- `.dropna(subset=[ind])` (src/peer_portal.py line 178). -/
def dropMissingRows (t : ColTable) : ColTable :=
  t.filter (fun r => ¬r.2 = none)

/-- The per-indicator chart table exactly as src/peer_portal.py lines 165-178
build it: aggregate FIRST, then replace the 999 sentinel, then drop blanks. -/
def chartCol (st : Stat) (t : ColTable) : ColTable :=
  dropMissingRows (replaceSentinel (aggCol st t))

/- ### Rows, frames, filtering -/

/-- One record: a mapping from column name to value, as an association list
in column order. -/
abbrev Row := List (String × Val)

/-- Read a record's value in a column; missing when the record has no entry
for that column (pandas fills absent columns with NaN). -/
def cell (r : Row) (c : String) : Val :=
  match r.find? (fun p => p.1 = c) with
  | some p => p.2
  | none => .missing

/-- An in-memory table: its column names in order, and its records. -/
structure Frame where
  cols : List String
  rows : List Row
deriving DecidableEq

/-- The empty DataFrame (`pd.DataFrame()`). -/
def emptyFrame : Frame := ⟨[], []⟩

/-- One column of a frame, as the list of its rows' values. -/
def colOf (f : Frame) (c : String) : List Val :=
  f.rows.map (fun r => cell r c)

/-- `series.isin(selection)` for one value: a string cell matches when it is
one of the selected strings; a missing or numeric cell matches nothing. -/
def isinV (v : Val) (sel : List String) : Bool :=
  match v with
  | .str s => sel.contains s
  | _ => false

/-- The filter mask of src/peer_portal.py lines 105-111: start all-True, and
conjoin an `isin` constraint only for each facet whose selection list is
non-empty (`if regions: mask &= df["Region"].isin(regions)` and likewise for
incomes and countries). -/
def passU (vr vi vc : Val) (regions incomes countries : List String) : Bool :=
  (if regions.isEmpty then true else isinV vr regions) &&
  (if incomes.isEmpty then true else isinV vi incomes) &&
  (if countries.isEmpty then true else isinV vc countries)

/-- The filter mask of src/peer-portal.py lines 66-68:
`mask = df["Region"].isin(regions) & df["Income"].isin(incomes)` always, and
`mask &= df["Country"].isin(countries)` only when countries is non-empty. -/
def passH (vr vi vc : Val) (regions incomes countries : List String) : Bool :=
  (isinV vr regions && isinV vi incomes) &&
  (if countries.isEmpty then true else isinV vc countries)

/-- Modelled from the spec's words (section 4.2, `filter`, policy A): "a
record passes if, for every facet with a non-empty selection, the record's
value for that facet is a member of the selected set; facets with an empty
selection impose no constraint". -/
def specPass (vr vi vc : Val) (regions incomes countries : List String) : Prop :=
  (regions ≠ [] → isinV vr regions = true) ∧
  (incomes ≠ [] → isinV vi incomes = true) ∧
  (countries ≠ [] → isinV vc countries = true)

/-- `df.loc[mask]` for the src/peer_portal.py mask (lines 105-112): the rows
passing the filter. -/
def filterRows (f : Frame) (regions incomes countries : List String) : List Row :=
  f.rows.filter
    (fun r => passU (cell r "Region") (cell r "Income") (cell r "Country")
      regions incomes countries)

/- ### Boolean normalization (the Yes/No recode of ingest)

src/peer_portal.py lines 30-32 and 66-68, src/peer-portal.py lines 21-23:
    for col in df.columns:
        if df[col].dropna().isin(["Yes", "No"]).all():
            df[col] = df[col].map({"Yes": 1, "No": 0})
-/

/-- `series.map({"Yes": 1, "No": 0})` on one cell: pandas maps values absent
from the dict (including NaN) to NaN. -/
def mapYesNo : Val → Val
  | .str "Yes" => .num 1
  | .str "No" => .num 0
  | _ => .missing

/-- One cell's contribution to `dropna().isin(["Yes","No"]).all()`: a missing
cell is dropped (so passes), a string cell must be "Yes" or "No", any other
cell fails. -/
def yesNoCell : Val → Bool
  | .missing => true
  | .str s => s == "Yes" || s == "No"
  | .num _ => false

/-- `df[col].dropna().isin(["Yes", "No"]).all()`; on an all-missing column
`all()` of the empty series is True. -/
def yesNoColumn (vs : List Val) : Bool := vs.all yesNoCell

/-- The loop body of the Yes/No recode for one column: rewrite the column
through `mapYesNo` exactly when every non-missing value is "Yes" or "No". -/
def recodeCol (vs : List Val) : List Val :=
  if yesNoColumn vs then vs.map mapYesNo else vs

/-- The whole recode loop over a frame: every column whose non-missing values
are all "Yes"/"No" is rewritten in place through `mapYesNo`. -/
def recodeFrame (f : Frame) : Frame :=
  ⟨f.cols,
   f.rows.map (fun r =>
     f.cols.map (fun c =>
       (c, if yesNoColumn (colOf f c) then mapYesNo (cell r c) else cell r c)))⟩

/- ### The Dataset Store and ingest

src/peer_portal.py lines 20-48 (autoload) and 57-80 (upload):
read a batch, recode Yes/No, default the Theme column to the file name,
then per distinct Theme value
`store[theme] = pd.concat([store.get(theme, pd.DataFrame()), part],
ignore_index=True)` (lines 42-45 and 76-79); src/peer-portal.py lines 18-29
do the same merge but read the batch unguarded (line 20). -/

/-- `pd.concat([f, g], ignore_index=True)`: rows appended in order, columns
the union (first frame's columns first, then the second's new ones); a row
lacking a column reads as missing through `cell`. -/
def concatF (f g : Frame) : Frame :=
  ⟨f.cols ++ g.cols.filter (fun c => ¬c ∈ f.cols), f.rows ++ g.rows⟩

/-- The Dataset Store: the session's theme-to-table dictionary
(`st.session_state.store`). -/
abbrev Store := List (String × Frame)

/-- `store.get(theme, pd.DataFrame())`. -/
def storeGet (st : Store) (t : String) : Frame :=
  match st.find? (fun p => p.1 = t) with
  | some p => p.2
  | none => emptyFrame

/-- `store[theme] = f` (dictionary update). -/
def storeSet (st : Store) (t : String) (f : Frame) : Store :=
  (t, f) :: st.filter (fun p => ¬p.1 = t)

/-- The per-theme merge step: append a batch part onto the theme's existing
dataset, creating it if absent (src/peer_portal.py lines 42-45 / 76-79,
src/peer-portal.py lines 26-29). -/
def ingestPart (st : Store) (t : String) (part : Frame) : Store :=
  storeSet st t (concatF (storeGet st t) part)

/-- Add a Theme column holding the source name when the batch has none
(src/peer_portal.py lines 35-36 / 70-71). -/
def ensureTheme (f : Frame) (d : String) : Frame :=
  if "Theme" ∈ f.cols then f
  else ⟨f.cols ++ ["Theme"], f.rows.map (fun r => r ++ [("Theme", .str d)])⟩

/-- `df["Theme"].unique()`: the distinct Theme values of a batch. -/
def themeVals (f : Frame) : List Val :=
  (f.rows.map (fun r => cell r "Theme")).dedup

/-- `df[df["Theme"] == raw]`: the batch rows of one Theme value. -/
def partOf (f : Frame) (tv : Val) : Frame :=
  ⟨f.cols, f.rows.filter (fun r => cell r "Theme" = tv)⟩

/-- `str(raw)` on a Theme value, as used for the store key
(src/peer_portal.py lines 40, 74).  Only the string case arises in the
claims; numbers are rendered as numerator/denominator, NaN as "nan". -/
def valStr : Val → String
  | .str s => s
  | .num q => toString q.num ++ "/" ++ toString q.den
  | .missing => "nan"

/-- Ingest one parsed batch: recode Yes/No columns, default the Theme column,
then merge each Theme's part into the store (the loop body shared by
autoload, src/peer_portal.py lines 29-45, and upload, lines 65-79). -/
def ingestFrame (st : Store) (defaultTheme : String) (f : Frame) : Store :=
  let f2 := ensureTheme (recodeFrame f) defaultTheme
  (themeVals f2).foldl (fun s tv => ingestPart s (valStr tv) (partOf f2 tv)) st

/-- The autoload / guarded-upload loop of src/peer_portal.py (lines 22-27 and
58-63): each input is a parsed batch, or `none` for a batch whose read raised;
the `try/except` reports a warning and `continue`s, so a `none` is skipped and
the remaining batches are still ingested. -/
def autoloadU (inputs : List (Option (String × Frame))) (st : Store) : Store :=
  inputs.foldl
    (fun s i => match i with
      | none => s
      | some nf => ingestFrame s nf.1 nf.2) st

/-- The upload loop of src/peer-portal.py (lines 19-29): the read on line 20
is unguarded, so a batch whose read raises aborts the whole loop — batches
after it are never ingested, while the store keeps the batches merged before
the failure. -/
def uploadH : List (Option (String × Frame)) → Store → Store
  | [], st => st
  | none :: _, st => st
  | some nf :: rest, st => uploadH rest (ingestFrame st nf.1 nf.2)

/- ### The query pipeline (filter, project, coerce) as one store-passing step -/

/-- `pd.to_numeric(values, errors="coerce")` on one cell: numbers stay,
numeric text parses (modelled on integer literals), anything else — and
NaN — becomes missing, never an error. -/
def toNumericVal : Val → Val
  | .num q => .num q
  | .str s =>
      match s.toInt? with
      | some n => .num (n : ℚ)
      | none => .missing
  | .missing => .missing

/-- The reserved (non-indicator) columns. -/
def reservedCols : List String := ["Theme", "Country", "Region", "Income"]

/-- The full read-side pipeline of src/peer_portal.py lines 105-136 as one
step over the store: look the theme up, build the filter mask (lines
105-111), project `Country, Region, Income` plus the indicator columns and
take a copy (`.copy()`, lines 112-113), then coerce the selected indicators
to numeric in place on that copy (lines 135-136).  The store component of
the result records what the store holds afterwards: because the code writes
only into the `.copy()`, the store passes through untouched. -/
def runQuery (st : Store) (theme : String)
    (regions incomes countries selInds : List String) : Store × Frame :=
  let df := storeGet st theme
  let keep := df.rows.filter
    (fun r => passU (cell r "Region") (cell r "Income") (cell r "Country")
      regions incomes countries)
  let cols := ["Country", "Region", "Income"] ++
    df.cols.filter (fun c => ¬c ∈ reservedCols)
  let data : Frame := ⟨cols, keep.map (fun r => cols.map (fun c => (c, cell r c)))⟩
  let coerced : Frame :=
    ⟨data.cols,
     data.rows.map (fun r =>
       r.map (fun p => if p.1 ∈ selInds then (p.1, toNumericVal p.2) else p))⟩
  (st, coerced)

/- ### Concrete fixtures for witnesses and counterexamples -/

/-- Group "A" holding the indicator values 1, 3 and the 999 sentinel. -/
def t999 : ColTable := [("A", some 1), ("A", some 3), ("A", some 999)]

/-- A table whose group "A" has only missing values in its single column. -/
def tAllMissing : ATable := [("A", [none]), ("A", [none]), ("B", [some 7])]

/-- Group "A" holding the even-count sample 2, 4, 6, 8. -/
def tEven : ATable := [("A", [some 2]), ("A", [some 4]), ("A", [some 6]), ("A", [some 8])]

/-- First ingest batch for theme "T": indicator column "x" only. -/
def b1w : Frame :=
  ⟨["Theme", "Country", "x"],
   [[("Theme", .str "T"), ("Country", .str "AA"), ("x", .num 1)]]⟩

/-- Second ingest batch for theme "T": indicator column "y" only. -/
def b2w : Frame :=
  ⟨["Theme", "Country", "y"],
   [[("Theme", .str "T"), ("Country", .str "BB"), ("y", .num 2)]]⟩

/-- A parseable batch used alongside an unparseable one. -/
def bT : Frame :=
  ⟨["Theme", "Country"], [[("Theme", .str "T"), ("Country", .str "AA")]]⟩

/-- A record with Region "Europe", Income "High", Country "Albania". -/
def rowEx : Row :=
  [("Country", .str "Albania"), ("Region", .str "Europe"), ("Income", .str "High")]

/-- The Yes/No/Yes/missing column of the spec's normalization example. -/
def colYN : List Val := [.str "Yes", .str "No", .str "Yes", .missing]

/-- The Yes/Maybe column of the spec's normalization example. -/
def colYM : List Val := [.str "Yes", .str "Maybe"]

/- ================================================================
   PART 2: THEOREMS
   ================================================================ -/

/- ### Order lemmas -/

theorem leChars_cons_iff (x y : Char) (xs ys : List Char) :
    leChars (x :: xs) (y :: ys) = true ↔
      (x.toNat < y.toNat ∨ (x.toNat = y.toNat ∧ leChars xs ys = true)) := by
  simp only [leChars]
  by_cases h1 : x.toNat < y.toNat
  · simp [h1]
  · by_cases h2 : y.toNat < x.toNat
    · simp [h1, h2]; omega
    · have h3 : x.toNat = y.toNat := by omega
      simp [h1, h2, h3]

theorem leChars_total : ∀ a b, leChars a b = true ∨ leChars b a = true := by
  intro a
  induction a with
  | nil => intro b; left; simp [leChars]
  | cons x xs ih =>
    intro b
    cases b with
    | nil => right; simp [leChars]
    | cons y ys =>
      rcases Nat.lt_trichotomy x.toNat y.toNat with h | h | h
      · left; rw [leChars_cons_iff]; exact Or.inl h
      · rcases ih ys with hr | hr
        · left; rw [leChars_cons_iff]; exact Or.inr ⟨h, hr⟩
        · right; rw [leChars_cons_iff]; exact Or.inr ⟨h.symm, hr⟩
      · right; rw [leChars_cons_iff]; exact Or.inl h

theorem leChars_trans :
    ∀ a b c, leChars a b = true → leChars b c = true → leChars a c = true := by
  intro a
  induction a with
  | nil => intro b c _ _; simp [leChars]
  | cons x xs ih =>
    intro b c hab hbc
    cases b with
    | nil => simp [leChars] at hab
    | cons y ys =>
      cases c with
      | nil => simp [leChars] at hbc
      | cons z zs =>
        rw [leChars_cons_iff] at hab hbc ⊢
        rcases hab with h1 | ⟨h1, h1r⟩
        · rcases hbc with h2 | ⟨h2, _⟩
          · left; omega
          · left; omega
        · rcases hbc with h2 | ⟨h2, h2r⟩
          · left; omega
          · right; exact ⟨by omega, ih ys zs h1r h2r⟩

theorem strLe_total (a b : String) : strLe a b = true ∨ strLe b a = true :=
  leChars_total a.data b.data

theorem strLe_trans {a b c : String} (hab : strLe a b = true) (hbc : strLe b c = true) :
    strLe a c = true :=
  leChars_trans a.data b.data c.data hab hbc

/- ### Sorting lemmas (strings) -/

theorem insertKey_perm (a : String) : ∀ l : List String, (insertKey a l).Perm (a :: l)
  | [] => List.Perm.refl _
  | b :: l => by
      by_cases h : strLe a b = true
      · simp [insertKey, h]
      · simp only [insertKey, if_neg h]
        exact ((insertKey_perm a l).cons b).trans (List.Perm.swap a b l)

theorem sortKeys_perm : ∀ l : List String, (sortKeys l).Perm l
  | [] => List.Perm.refl _
  | a :: l => (insertKey_perm a (sortKeys l)).trans ((sortKeys_perm l).cons a)

theorem mem_insertKey {x a : String} {l : List String} :
    x ∈ insertKey a l ↔ x = a ∨ x ∈ l := by
  rw [(insertKey_perm a l).mem_iff]; simp

theorem mem_sortKeys {x : String} {l : List String} : x ∈ sortKeys l ↔ x ∈ l :=
  (sortKeys_perm l).mem_iff

theorem keysSorted_insertKey (a : String) :
    ∀ l : List String, KeysSorted l → KeysSorted (insertKey a l) := by
  intro l
  induction l with
  | nil => intro _; simp [insertKey, KeysSorted]
  | cons b l ih =>
    intro h
    rw [KeysSorted, List.pairwise_cons] at h
    by_cases hab : strLe a b = true
    · simp only [insertKey, hab, if_true]
      rw [KeysSorted, List.pairwise_cons]
      refine ⟨?_, List.Pairwise.cons h.1 h.2⟩
      intro x hx
      rcases List.mem_cons.mp hx with rfl | hx
      · exact hab
      · exact strLe_trans hab (h.1 x hx)
    · simp only [insertKey, if_neg hab]
      rw [KeysSorted, List.pairwise_cons]
      refine ⟨?_, ih h.2⟩
      intro x hx
      rcases mem_insertKey.mp hx with rfl | hx
      · rcases strLe_total x b with hr | hr
        · exact absurd hr hab
        · exact hr
      · exact h.1 x hx

theorem keysSorted_sortKeys : ∀ l : List String, KeysSorted (sortKeys l)
  | [] => by simp [sortKeys, KeysSorted]
  | a :: l => keysSorted_insertKey a (sortKeys l) (keysSorted_sortKeys l)

theorem insertKey_of_le {a b : String} (l : List String) (h : strLe a b = true) :
    insertKey a (b :: l) = a :: b :: l := by
  simp [insertKey, h]

theorem sortKeys_of_sorted : ∀ l : List String, KeysSorted l → sortKeys l = l := by
  intro l
  induction l with
  | nil => intro _; rfl
  | cons a l ih =>
    intro h
    rw [KeysSorted, List.pairwise_cons] at h
    have hl : sortKeys l = l := ih h.2
    cases l with
    | nil => rfl
    | cons b l' =>
      have hab : strLe a b = true := h.1 b (List.mem_cons_self b l')
      show insertKey a (sortKeys (b :: l')) = a :: b :: l'
      rw [hl, insertKey_of_le l' hab]

/- ### Sorting lemmas (rationals) -/

theorem insertRat_perm (x : ℚ) : ∀ l : List ℚ, (insertRat x l).Perm (x :: l)
  | [] => List.Perm.refl _
  | y :: l => by
      by_cases h : x ≤ y
      · simp [insertRat, h]
      · simp only [insertRat, if_neg h]
        exact ((insertRat_perm x l).cons y).trans (List.Perm.swap x y l)

theorem sortRats_perm : ∀ l : List ℚ, (sortRats l).Perm l
  | [] => List.Perm.refl _
  | x :: l => (insertRat_perm x (sortRats l)).trans ((sortRats_perm l).cons x)

theorem length_sortRats (l : List ℚ) : (sortRats l).length = l.length :=
  (sortRats_perm l).length_eq

theorem sorted_insertRat (x : ℚ) :
    ∀ l : List ℚ, l.Sorted (· ≤ ·) → (insertRat x l).Sorted (· ≤ ·) := by
  intro l
  induction l with
  | nil => intro _; simp [insertRat]
  | cons y l ih =>
    intro h
    rw [List.sorted_cons] at h
    by_cases hxy : x ≤ y
    · simp only [insertRat, if_pos hxy]
      rw [List.sorted_cons]
      refine ⟨?_, List.sorted_cons.mpr h⟩
      intro b hb
      rcases List.mem_cons.mp hb with rfl | hb
      · exact hxy
      · exact le_trans hxy (h.1 b hb)
    · simp only [insertRat, if_neg hxy]
      rw [List.sorted_cons]
      refine ⟨?_, ih h.2⟩
      intro b hb
      rcases List.mem_cons.mp ((insertRat_perm x l).mem_iff.mp hb) with rfl | hb
      · exact le_of_not_le hxy
      · exact h.1 b hb

theorem sorted_sortRats : ∀ l : List ℚ, (sortRats l).Sorted (· ≤ ·)
  | [] => by simp [sortRats]
  | x :: l => sorted_insertRat x (sortRats l) (sorted_sortRats l)

/-- The sorted permutation of a rational list is unique: any sorted
permutation of `l` is `sortRats l`. -/
theorem eq_sortRats_of_sorted_perm {l s : List ℚ}
    (hp : s.Perm l) (hs : s.Sorted (· ≤ ·)) : s = sortRats l :=
  List.eq_of_perm_of_sorted (hp.trans (sortRats_perm l).symm) hs (sorted_sortRats l)

/- ### Statistic lemmas -/

theorem pandasStat_single (st : Stat) (c : ACell) : pandasStat st [c] = c := by
  cases c with
  | none => simp [pandasStat, dropNA]
  | some x =>
    cases st with
    | mean => simp [pandasStat, dropNA, applyStat, mean]
    | median =>
      simp [pandasStat, dropNA, applyStat, npMedian, sortRats, insertRat,
        add_self_div_two]

theorem pandasStat_eq_specAggCell (st : Stat) (vs : List ACell) :
    pandasStat st vs = specAggCell st vs := by
  simp only [pandasStat, specAggCell, dropNA, List.length_eq_zero]

/- ### Aggregation lemmas -/

theorem tableKeys_nodup {β : Type} (t : List (String × β)) : (tableKeys t).Nodup :=
  (sortKeys_perm ((t.map Prod.fst).dedup)).symm.nodup ((t.map Prod.fst).nodup_dedup)

theorem tableKeys_sorted {β : Type} (t : List (String × β)) : KeysSorted (tableKeys t) :=
  keysSorted_sortKeys _

theorem find?_keys_map {β : Type} (f : String → β) (k : String) :
    ∀ l : List String, k ∈ l →
      (l.map (fun a => (a, f a))).find? (fun r => r.1 = k) = some (k, f k) := by
  intro l
  induction l with
  | nil => intro h; exact absurd h (List.not_mem_nil k)
  | cons a l ih =>
    intro h
    by_cases hak : a = k
    · subst hak
      simp [List.find?]
    · have hk : k ∈ l := by
        rcases List.mem_cons.mp h with rfl | hk
        · exact absurd rfl hak
        · exact hk
      simpa [List.find?, hak] using ih hk

theorem keyRows_map_nil {β : Type} (f : String → β) (k : String) :
    ∀ l : List String, k ∉ l →
      keyRows (l.map (fun a => (a, f a))) k = [] := by
  intro l
  induction l with
  | nil => intro _; rfl
  | cons a l ih =>
    intro h
    have hak : ¬(a = k) := fun hcontra => h (hcontra ▸ List.mem_cons_self a l)
    have hk : k ∉ l := fun hcontra => h (List.mem_cons_of_mem a hcontra)
    simpa [keyRows, List.filter, hak] using ih hk

theorem keyRows_map_nodup {β : Type} (f : String → β) (k : String) :
    ∀ l : List String, l.Nodup → k ∈ l →
      keyRows (l.map (fun a => (a, f a))) k = [f k] := by
  intro l
  induction l with
  | nil => intro _ h; exact absurd h (List.not_mem_nil k)
  | cons a l ih =>
    intro hnd h
    rw [List.nodup_cons] at hnd
    by_cases hak : a = k
    · subst hak
      have hnil : keyRows (l.map (fun a => (a, f a))) a = [] :=
        keyRows_map_nil f a l hnd.1
      simpa [keyRows, List.filter] using hnil
    · have hk : k ∈ l := by
        rcases List.mem_cons.mp h with rfl | hk
        · exact absurd rfl hak
        · exact hk
      simpa [keyRows, List.filter, hak] using ih hnd.2 hk

theorem range_map_getD (n j : ℕ) (g : ℕ → ACell) (hj : j < n) :
    ((List.range n).map g).getD j none = g j := by
  rw [List.getD_eq_getElem?_getD, List.getElem?_map, List.getElem?_range hj]
  rfl

/-- The cell of an aggregated table at group `k`, column `j`, is the
NaN-skipping statistic of that group's column values. -/
theorem cellAt_aggTable (st : Stat) (n : ℕ) (t : ATable) (k : String) (j : ℕ)
    (hk : k ∈ tableKeys t) (hj : j < n) :
    cellAt (aggTable st n t) k j = pandasStat st (colVals t k j) := by
  rw [cellAt, aggTable,
    find?_keys_map (fun k => (List.range n).map (fun j => pandasStat st (colVals t k j)))
      k (tableKeys t) hk]
  exact range_map_getD n j _ hj

theorem map_fst_aggTable (st : Stat) (n : ℕ) (t : ATable) :
    (aggTable st n t).map Prod.fst = tableKeys t := by
  simp [aggTable, Function.comp_def]

theorem tableKeys_aggTable (st : Stat) (n : ℕ) (t : ATable) :
    tableKeys (aggTable st n t) = tableKeys t := by
  rw [tableKeys, map_fst_aggTable, List.dedup_eq_self.mpr (tableKeys_nodup t),
    sortKeys_of_sorted _ (tableKeys_sorted t)]

/-- In an aggregated table every group is a single row, so a column of a group
of the output is the singleton of the corresponding aggregated cell. -/
theorem colVals_aggTable (st : Stat) (n : ℕ) (t : ATable) (k : String) (j : ℕ)
    (hk : k ∈ tableKeys t) (hj : j < n) :
    colVals (aggTable st n t) k j = [pandasStat st (colVals t k j)] := by
  rw [colVals, aggTable,
    keyRows_map_nodup (fun k => (List.range n).map (fun j => pandasStat st (colVals t k j)))
      k (tableKeys t) (tableKeys_nodup t) hk]
  simp only [List.map_cons, List.map_nil, List.cons.injEq, and_true]
  exact range_map_getD n j _ hj

/- ### Claim theorems -/

/-- Claim C8: aggregation is idempotent on its own output — for every table,
grouping key (the key position of the keyed rows) and statistic, applying
`aggTable` to its own already-grouped single-row-per-group result, with the
same key and statistic, returns that same table. -/
theorem C8_aggregate_idempotent (st : Stat) (n : ℕ) (t : ATable) :
    aggTable st n (aggTable st n t) = aggTable st n t := by
  conv_lhs => rw [aggTable]
  rw [tableKeys_aggTable]
  conv_rhs => rw [aggTable]
  apply List.map_congr_left
  intro k hk
  congr 1
  apply List.map_congr_left
  intro j hj
  rw [colVals_aggTable st n t k j hk (List.mem_range.mp hj), pandasStat_single]

/-- Claim C4: for every table, grouping key and requested column, aggregation
computes the mean or median over only the non-missing values of that column
within each group (`specAggCell`, the aggregate the spec describes), and a
group whose values for a column are all missing yields a missing aggregate
for that cell, never zero. -/
theorem C4_aggregate_skips_missing (st : Stat) (n : ℕ) (t : ATable)
    (k : String) (j : ℕ) (hk : k ∈ tableKeys t) (hj : j < n) :
    cellAt (aggTable st n t) k j = specAggCell st (colVals t k j) ∧
    ((∀ v ∈ colVals t k j, v = none) →
      cellAt (aggTable st n t) k j = none ∧
      cellAt (aggTable st n t) k j ≠ some 0) := by
  have hcell := cellAt_aggTable st n t k j hk hj
  constructor
  · rw [hcell, pandasStat_eq_specAggCell]
  · intro hall
    have hnil : dropNA (colVals t k j) = [] := by
      rw [dropNA, List.filterMap_eq_nil_iff]
      intro a ha
      simpa using hall a ha
    have hnone : pandasStat st (colVals t k j) = none := by
      simp [pandasStat, hnil]
    rw [hcell, hnone]
    exact ⟨rfl, by simp⟩

/-- Witness for C4: group "A" of `tAllMissing` has only missing values in
column 0, and its aggregated cell is missing, not zero. -/
theorem C4_aggregate_skips_missing_witness :
    cellAt (aggTable .mean 1 tAllMissing) "A" 0 = none ∧
    cellAt (aggTable .mean 1 tAllMissing) "A" 0 ≠ some 0 :=
  (C4_aggregate_skips_missing .mean 1 tAllMissing "A" 0 (by decide) (by decide)).2
    (by decide)

/-- Claim C5: for every group with an even count `2 * m` of non-missing
values, the median statistic computed by aggregation equals the average of
the two middle values (positions `m - 1` and `m`) of the sorted group. -/
theorem C5_even_median (n : ℕ) (t : ATable) (k : String) (j m : ℕ)
    (s : List ℚ) (hk : k ∈ tableKeys t) (hj : j < n)
    (hperm : s.Perm (dropNA (colVals t k j))) (hsort : s.Sorted (· ≤ ·))
    (hlen : s.length = 2 * m) (hm : 0 < m) :
    cellAt (aggTable .median n t) k j
      = some ((s.getD (m - 1) 0 + s.getD m 0) / 2) := by
  have hcell := cellAt_aggTable .median n t k j hk hj
  have hs : s = sortRats (dropNA (colVals t k j)) :=
    eq_sortRats_of_sorted_perm hperm hsort
  have hxslen : (dropNA (colVals t k j)).length = 2 * m := by
    rw [← hperm.length_eq, hlen]
  have hne : ¬dropNA (colVals t k j) = [] := by
    intro hcontra
    rw [hcontra] at hxslen
    simp at hxslen
    omega
  have hps : pandasStat .median (colVals t k j)
      = some (npMedian (dropNA (colVals t k j))) := by
    simp [pandasStat, hne, applyStat]
  have hnm : npMedian (dropNA (colVals t k j)) =
      ((sortRats (dropNA (colVals t k j))).getD ((2 * m - 1) / 2) 0 +
       (sortRats (dropNA (colVals t k j))).getD (2 * m / 2) 0) / 2 := by
    simp only [npMedian, hxslen]
  rw [hcell, hps, hnm, show (2 * m - 1) / 2 = m - 1 by omega,
    show 2 * m / 2 = m by omega, ← hs]

/-- Witness for C5: the group "A" of `tEven` holds the even-count sample
2, 4, 6, 8, and its aggregated median is 5, the average of the two middle
sorted values 4 and 6. -/
theorem C5_even_median_witness :
    cellAt (aggTable .median 1 tEven) "A" 0 = some 5 := by
  have h := C5_even_median 1 tEven "A" 0 2 [2, 4, 6, 8] (by decide) (by decide)
    (List.Perm.refl _) (by norm_num [List.sorted_cons]) (by decide) (by decide)
  rw [h]
  norm_num [List.getD]


/-- Claim C1 (the failing input evaluated): on group "A" with indicator
values 1, 3 and the 999 sentinel, the per-indicator chart path of
src/peer_portal.py lines 165-178 aggregates first and replaces 999 only in
the aggregated column, so the mean is computed over 1, 3 and 999 and comes
out 1003/3, not the 2 the claim requires; recoding the sentinel before
aggregating (the order the spec prescribes) does give 2. -/
theorem C1_sentinel_replaced_after_aggregation :
    chartCol .mean t999 = [("A", some (1003 / 3))] ∧
    ((1003 : ℚ) / 3) ≠ 2 ∧
    aggCol .mean (replaceSentinel t999) = [("A", some 2)] := by
  have hkeys : tableKeys t999 = ["A"] := by decide
  have hrows : keyRows t999 "A" = [some 1, some 3, some 999] := by decide
  have hps : pandasStat .mean [some 1, some 3, some 999] = some (1003 / 3) := by
    simp [pandasStat, dropNA, applyStat, mean]
    norm_num
  have hagg : aggCol .mean t999 = [("A", some (1003 / 3))] := by
    rw [aggCol, hkeys]
    simp [hrows, hps]
  refine ⟨?_, by norm_num, ?_⟩
  · rw [chartCol, hagg]
    have hne : ¬((1003 : ℚ) / 3 = 999) := by norm_num
    simp [replaceSentinel, dropMissingRows, hne]
  · have hrep : replaceSentinel t999 = [("A", some 1), ("A", some 3), ("A", none)] := by
      simp only [replaceSentinel, t999, List.map_cons, List.map_nil]
      norm_num
    rw [hrep]
    have hkeys2 : tableKeys [("A", some 1), ("A", some 3), ("A", (none : ACell))]
        = ["A"] := by decide
    have hrows2 : keyRows [("A", some 1), ("A", some 3), ("A", (none : ACell))] "A"
        = [some 1, some 3, none] := by decide
    have hps2 : pandasStat .mean [some 1, some 3, none] = some 2 := by
      simp [pandasStat, dropNA, applyStat, mean]
      norm_num
    rw [aggCol, hkeys2]
    simp [hrows2, hps2]

/-- Claim C2 counterexample: in src/peer-portal.py (lines 66-68) a record
does not pass the filter when all three selections are empty, although the
claim (empty selections impose no constraint, so every record passes)
requires it to. -/
theorem C2_empty_selection_counterexample :
    specPass (.str "Europe") (.str "High") (.str "Albania") [] [] [] ∧
    passH (.str "Europe") (.str "High") (.str "Albania") [] [] [] = false := by
  constructor
  · exact ⟨fun h => absurd rfl h, fun h => absurd rfl h, fun h => absurd rfl h⟩
  · rfl

theorem if_true_else_eq_true (c : Prop) [Decidable c] (b : Bool) :
    ((if c then true else b) = true) ↔ (¬c → b = true) := by
  by_cases h : c <;> simp [h]

/-- Claim C2 as amended: the two variants implement different empty-selection
policies.  In src/peer_portal.py (lines 105-111) a record passes if and only
if, for every facet whose selection is non-empty, the record's value is a
member of the selected set — empty selections impose no constraint (the
claim's policy, `specPass`).  In src/peer-portal.py (lines 66-68) only the
Country facet has that semantics: a record must match the Region and Income
selections unconditionally, so an empty Region or Income selection excludes
every record.  Filtering by a Region value no record carries yields the
empty result in the peer_portal.py variant. -/
theorem C2_filter_policy_by_variant :
    (∀ vr vi vc regions incomes countries,
        passU vr vi vc regions incomes countries = true ↔
          specPass vr vi vc regions incomes countries) ∧
    (∀ vr vi vc regions incomes countries,
        passH vr vi vc regions incomes countries = true ↔
          (isinV vr regions = true ∧ isinV vi incomes = true ∧
            (countries = [] ∨ isinV vc countries = true))) ∧
    (∀ (f : Frame) (v : String),
        (∀ r ∈ f.rows, cell r "Region" ≠ .str v) →
        filterRows f [v] [] [] = []) := by
  refine ⟨?_, ?_, ?_⟩
  · intro vr vi vc regions incomes countries
    rw [passU, specPass, Bool.and_eq_true, Bool.and_eq_true,
      if_true_else_eq_true, if_true_else_eq_true, if_true_else_eq_true]
    simp only [List.isEmpty_iff]
    tauto
  · intro vr vi vc regions incomes countries
    rw [passH, Bool.and_eq_true, Bool.and_eq_true, if_true_else_eq_true]
    simp only [List.isEmpty_iff]
    constructor
    · rintro ⟨⟨h1, h2⟩, h3⟩
      refine ⟨h1, h2, ?_⟩
      by_cases hc : countries = []
      · exact Or.inl hc
      · exact Or.inr (h3 hc)
    · rintro ⟨h1, h2, h3⟩
      refine ⟨⟨h1, h2⟩, fun hc => ?_⟩
      rcases h3 with h3 | h3
      · exact absurd h3 hc
      · exact h3
  · intro f v hreg
    rw [filterRows, List.filter_eq_nil_iff]
    intro r hr
    have hv : isinV (cell r "Region") [v] = false := by
      rcases hcel : cell r "Region" with s | q | _
      · have hne : ¬(s = v) := by
          intro hsv
          exact hreg r hr (by rw [hcel, hsv])
        simp [isinV, hne]
      · rfl
      · rfl
    simp [passU, hv]

/-- Witness for C2 as amended: a record passes the peer_portal.py filter with
all selections empty, and filtering a one-record frame by the absent Region
value "Zed" yields the empty result. -/
theorem C2_filter_policy_witness :
    passU (.str "Europe") (.str "High") (.str "Albania") [] [] [] = true ∧
    filterRows ⟨["Country", "Region", "Income"], [rowEx]⟩ ["Zed"] [] [] = [] := by
  constructor
  · exact (C2_filter_policy_by_variant.1 (.str "Europe") (.str "High")
      (.str "Albania") [] [] []).mpr
      ⟨fun h => absurd rfl h, fun h => absurd rfl h, fun h => absurd rfl h⟩
  · exact C2_filter_policy_by_variant.2.2 _ "Zed" (by decide)

/-- Claim C3 counterexample: fed an unparseable batch followed by a parseable
one, the unguarded upload loop of src/peer-portal.py (line 20) aborts and
never ingests the parseable batch (the store stays empty), although the same
inputs under the skip-and-continue semantics do ingest it. -/
theorem C3_unguarded_read_counterexample :
    uploadH [none, some ("f1", bT)] [] = ([] : Store) ∧
    autoloadU [none, some ("f1", bT)] [] ≠ ([] : Store) := by
  constructor
  · rfl
  · decide

/-- Claim C3 as amended: in src/peer_portal.py (autoload lines 22-27 and the
guarded upload lines 58-63) an unparseable batch is skipped — removing it
from the input sequence does not change the resulting store, so the other
batches are still ingested and the store is never corrupted; in the
src/peer-portal.py upload loop (line 20) an unparseable batch aborts the
loop — everything after it is ignored (the store keeps only the batches
merged before the failure). -/
theorem C3_unparseable_batch_skip_or_abort :
    (∀ (xs ys : List (Option (String × Frame))) (st : Store),
        autoloadU (xs ++ none :: ys) st = autoloadU (xs ++ ys) st) ∧
    (∀ (xs ys ys' : List (Option (String × Frame))) (st : Store),
        uploadH (xs ++ none :: ys) st = uploadH (xs ++ none :: ys') st) := by
  constructor
  · intro xs ys st
    rw [autoloadU, autoloadU, List.foldl_append, List.foldl_append]
    rfl
  · intro xs ys ys' st
    induction xs generalizing st with
    | nil => rfl
    | cons x xs ih =>
      cases x with
      | none => rfl
      | some nf =>
        simp only [List.cons_append, uploadH]
        exact ih _

theorem yesNoCell_iff (v : Val) :
    yesNoCell v = true ↔ (v ≠ .missing → v = .str "Yes" ∨ v = .str "No") := by
  rcases v with s | q | _
  · simp [yesNoCell]
  · simp [yesNoCell]
  · simp [yesNoCell]

theorem yesNoColumn_iff (vs : List Val) :
    yesNoColumn vs = true ↔
      (∀ v ∈ vs, v ≠ .missing → v = .str "Yes" ∨ v = .str "No") := by
  simp only [yesNoColumn, List.all_eq_true, yesNoCell_iff]

/-- Claim C6: during ingest, a column whose non-missing values are drawn
entirely from the two-element set of "Yes" and "No" is rewritten through
`mapYesNo` — "Yes" to 1 and "No" to 0 with missing staying missing — and a
column holding any other non-missing value is left untouched. -/
theorem C6_yes_no_normalization (vs : List Val) :
    ((∀ v ∈ vs, v ≠ .missing → v = .str "Yes" ∨ v = .str "No") →
        recodeCol vs = vs.map mapYesNo ∧
        mapYesNo (.str "Yes") = .num 1 ∧ mapYesNo (.str "No") = .num 0 ∧
        mapYesNo .missing = .missing) ∧
    (∀ v₀ ∈ vs, v₀ ≠ .missing → v₀ ≠ .str "Yes" → v₀ ≠ .str "No" →
        recodeCol vs = vs) := by
  constructor
  · intro h
    exact ⟨by rw [recodeCol, if_pos ((yesNoColumn_iff vs).mpr h)], rfl, rfl, rfl⟩
  · intro v₀ hv₀ hm hy hn
    rw [recodeCol, if_neg]
    intro hcontra
    rcases ((yesNoColumn_iff vs).mp hcontra) v₀ hv₀ hm with h | h
    · exact hy h
    · exact hn h

/-- Witness for C6: the column Yes, No, Yes, missing becomes 1, 0, 1,
missing, and the column Yes, Maybe is left untouched. -/
theorem C6_yes_no_normalization_witness :
    recodeCol colYN = [.num 1, .num 0, .num 1, .missing] ∧
    recodeCol colYM = colYM := by
  constructor
  · have h := (C6_yes_no_normalization colYN).1 (by decide)
    rw [h.1]
    decide
  · exact (C6_yes_no_normalization colYM).2 (.str "Maybe") (by decide)
      (by decide) (by decide) (by decide)

/-- Claim C10: a column whose values are all missing satisfies the Yes/No
membership guard vacuously, and passing it through the recode leaves it
unchanged — every value still missing — without failing. -/
theorem C10_all_missing_column (vs : List Val) (h : ∀ v ∈ vs, v = .missing) :
    yesNoColumn vs = true ∧ recodeCol vs = vs := by
  have hg : yesNoColumn vs = true := by
    rw [yesNoColumn, List.all_eq_true]
    intro v hv
    rw [h v hv]
    rfl
  refine ⟨hg, ?_⟩
  rw [recodeCol, if_pos hg]
  have hmap : ∀ v ∈ vs, mapYesNo v = v := by
    intro v hv
    rw [h v hv]
    rfl
  rw [List.map_congr_left hmap, List.map_id']

/-- Witness for C10 on a two-entry all-missing column. -/
theorem C10_all_missing_column_witness :
    yesNoColumn [Val.missing, Val.missing] = true ∧
    recodeCol [Val.missing, Val.missing] = [Val.missing, Val.missing] :=
  C10_all_missing_column [.missing, .missing] (by decide)

theorem cell_eq_missing_of_not_mem (r : Row) (cols : List String) (c : String)
    (hr : ∀ p ∈ r, p.1 ∈ cols) (hc : c ∉ cols) : cell r c = .missing := by
  rw [cell]
  cases hfind : r.find? (fun p => p.1 = c) with
  | none => rfl
  | some p =>
    have hp : p.1 = c := by simpa using List.find?_some hfind
    have hmem : p ∈ r := List.mem_of_find?_eq_some hfind
    exact absurd (hp ▸ hr p hmem) hc

theorem storeGet_storeSet (st : Store) (t : String) (f : Frame) :
    storeGet (storeSet st t f) t = f := by
  rw [storeGet, storeSet, List.find?_cons_of_pos _ (by simp)]

theorem mem_concatF_cols (f g : Frame) (c : String) :
    c ∈ (concatF f g).cols ↔ c ∈ f.cols ∨ c ∈ g.cols := by
  simp only [concatF, List.mem_append, List.mem_filter, decide_eq_true_eq]
  constructor
  · rintro (h | ⟨h, _⟩)
    · exact Or.inl h
    · exact Or.inr h
  · rintro (h | h)
    · exact Or.inl h
    · by_cases h1 : c ∈ f.cols
      · exact Or.inl h1
      · exact Or.inr ⟨h, h1⟩

/-- Claim C7: merging two batches of the same Theme into the store appends
their rows (never deduplicating or replacing), sums the row counts, takes the
union of the column sets, and rows lacking the other batch's columns read as
missing there. -/
theorem C7_same_theme_merge (st : Store) (T : String) (b1 b2 : Frame)
    (h0 : storeGet st T = emptyFrame)
    (h1 : ∀ r ∈ b1.rows, ∀ p ∈ r, p.1 ∈ b1.cols)
    (h2 : ∀ r ∈ b2.rows, ∀ p ∈ r, p.1 ∈ b2.cols) :
    (storeGet (ingestPart (ingestPart st T b1) T b2) T).rows
        = b1.rows ++ b2.rows ∧
    (storeGet (ingestPart (ingestPart st T b1) T b2) T).rows.length
        = b1.rows.length + b2.rows.length ∧
    (∀ c, c ∈ (storeGet (ingestPart (ingestPart st T b1) T b2) T).cols ↔
        c ∈ b1.cols ∨ c ∈ b2.cols) ∧
    (∀ r ∈ b1.rows, ∀ c ∈ b2.cols, c ∉ b1.cols → cell r c = .missing) ∧
    (∀ r ∈ b2.rows, ∀ c ∈ b1.cols, c ∉ b2.cols → cell r c = .missing) := by
  have hd : storeGet (ingestPart (ingestPart st T b1) T b2) T
      = concatF (concatF emptyFrame b1) b2 := by
    rw [ingestPart, storeGet_storeSet, ingestPart, storeGet_storeSet, h0]
  have hrows : (storeGet (ingestPart (ingestPart st T b1) T b2) T).rows
      = b1.rows ++ b2.rows := by
    rw [hd]
    simp [concatF, emptyFrame]
  refine ⟨hrows, by rw [hrows, List.length_append], ?_, ?_, ?_⟩
  · intro c
    rw [hd, mem_concatF_cols, mem_concatF_cols]
    simp [emptyFrame]
  · intro r hr c hc2 hc1
    exact cell_eq_missing_of_not_mem r b1.cols c (h1 r hr) hc1
  · intro r hr c hc1 hc2
    exact cell_eq_missing_of_not_mem r b2.cols c (h2 r hr) hc2

/-- Witness for C7: ingesting the one-row batches `b1w` (indicator "x") and
`b2w` (indicator "y") for theme "T" into an empty store yields two rows, and
the `b1w` row reads as missing in the other batch's column "y". -/
theorem C7_same_theme_merge_witness :
    (storeGet (ingestPart (ingestPart ([] : Store) "T" b1w) "T" b2w) "T").rows.length
        = 2 ∧
    cell [("Theme", .str "T"), ("Country", .str "AA"), ("x", .num 1)] "y"
        = .missing := by
  have h := C7_same_theme_merge [] "T" b1w b2w rfl (by decide) (by decide)
  exact ⟨h.2.1, h.2.2.2.1 _ (by decide) "y" (by decide) (by decide)⟩

/-- Claim C9: only ingest mutates the Dataset Store — the read-side pipeline
(filter, projection and numeric coercion over the selected theme's table,
which the code applies to a `.copy()` of the filtered rows) leaves every
dataset held in the store unchanged. -/
theorem C9_query_leaves_store_unchanged (st : Store) (theme : String)
    (regions incomes countries selInds : List String) (t : String) :
    (runQuery st theme regions incomes countries selInds).1 = st ∧
    storeGet (runQuery st theme regions incomes countries selInds).1 t
      = storeGet st t :=
  ⟨rfl, rfl⟩

end PeerPortal
